import Mathlib

/-!
Verification of the `arch` repository's computational core against its
specification.  The repository ships `setup.py` together with Cython numeric
kernels (`arch/univariate/recursions.pyx`, `arch/bootstrap/_samplers.pyx`);
the kernels themselves are not part of the available sources, so they are
modelled here directly from the specification (each such definition is marked
`Modelled from the spec:`).  `setup.py` logic (extension configuration,
`strip_rc`, the package version checks) is translated from the source.
Real arithmetic is embedded as `ℚ`.
-/

namespace Arch

/-- Modelled from the spec: `Bounds` is a pair (lower, upper) clamping values
written into the VarianceSeries; the pair is ordered (lower ≤ upper), as in
the spec's example `[1e-8, 1e8]`. -/
structure Bounds where
  lower : ℚ
  upper : ℚ
  ordered : lower ≤ upper

/-- Modelled from the spec: clamp a value into `Bounds`. -/
def clamp (b : Bounds) (x : ℚ) : ℚ :=
  if x < b.lower then b.lower else if b.upper < x then b.upper else x

/-- Modelled from the spec: a `ModelSpec` for the symmetric GARCH(p,q)
family, the variant whose recursion formula the spec states explicitly:
`variance_t = ω + Σ αᵢ·r²_{t-i} + Σ βⱼ·variance_{t-j}`. -/
structure ModelSpec where
  p : ℕ
  q : ℕ

/-- Modelled from the spec: required ParameterVector length for a
symmetric GARCH(p,q) model: ω, then p ARCH coefficients, then q GARCH
coefficients. -/
def paramCount (spec : ModelSpec) : ℕ := 1 + spec.p + spec.q

/-- Modelled from the spec: one raw (pre-clamp) recursion step.  The element
computed is the one at index `prev.length`; unavailable past residual/variance
terms (negative time index) are substituted with `backcast`. -/
def varStep (spec : ModelSpec) (params resids : List ℚ) (backcast : ℚ)
    (prev : List ℚ) : ℚ :=
  let t := prev.length
  params.getD 0 0
    + ∑ i in Finset.range spec.p,
        params.getD (1 + i) 0 *
          (if t < i + 1 then backcast else (resids.getD (t - (i + 1)) 0) ^ 2)
    + ∑ j in Finset.range spec.q,
        params.getD (1 + spec.p + j) 0 *
          (if t < j + 1 then backcast else prev.getD (t - (j + 1)) 0)

/-- Modelled from the spec: the first `T` elements of the VarianceSeries;
every computed element is clamped into `Bounds` immediately, before being
used by subsequent steps. -/
def varList (spec : ModelSpec) (params resids : List ℚ) (backcast : ℚ)
    (b : Bounds) : ℕ → List ℚ
  | 0 => []
  | T + 1 =>
      let prev := varList spec params resids backcast b T
      prev ++ [clamp b (varStep spec params resids backcast prev)]

/-- Modelled from the spec: the kernel's only failure kind. -/
inductive KernelError where
  | InputMismatch
deriving DecidableEq

/-- Modelled from the spec: `compute_variance(ModelSpec, ParameterVector,
ResidualSeries, Backcast, Bounds) -> VarianceSeries | InputMismatch`;
InputMismatch iff the parameter count disagrees with the spec or T = 0. -/
def compute_variance (spec : ModelSpec) (params resids : List ℚ)
    (backcast : ℚ) (b : Bounds) : Except KernelError (List ℚ) :=
  if params.length ≠ paramCount spec ∨ resids.length = 0 then
    .error .InputMismatch
  else
    .ok (varList spec params resids backcast b resids.length)

instance {ε α : Type} [DecidableEq ε] [DecidableEq α] :
    DecidableEq (Except ε α)
  | .error a, .error b =>
      if h : a = b then .isTrue (by rw [h])
      else .isFalse (by intro hc; cases hc; exact h rfl)
  | .error _, .ok _ => .isFalse (by intro h; cases h)
  | .ok _, .error _ => .isFalse (by intro h; cases h)
  | .ok a, .ok b =>
      if h : a = b then .isTrue (by rw [h])
      else .isFalse (by intro hc; cases hc; exact h rfl)

/-- The GARCH(1,1) model spec. -/
def garch11 : ModelSpec := ⟨1, 1⟩

/-- The spec's example bounds [1e-8, 1e8]. -/
def exBounds : Bounds := ⟨1 / 100000000, 100000000, by norm_num⟩

/-! Basic structural lemmas about the variance recursion. -/

lemma clamp_bounds (b : Bounds) (x : ℚ) :
    b.lower ≤ clamp b x ∧ clamp b x ≤ b.upper := by
  unfold clamp
  split
  · exact ⟨le_refl _, b.ordered⟩
  · split
    · exact ⟨b.ordered, le_refl _⟩
    · refine ⟨?_, ?_⟩ <;> [exact not_lt.mp (by assumption); exact not_lt.mp (by assumption)]

lemma varList_length (spec : ModelSpec) (params resids : List ℚ)
    (backcast : ℚ) (b : Bounds) (T : ℕ) :
    (varList spec params resids backcast b T).length = T := by
  induction T with
  | zero => rfl
  | succ n ih => simp [varList, ih]

lemma varList_take (spec : ModelSpec) (params resids : List ℚ)
    (backcast : ℚ) (b : Bounds) {t T : ℕ} (h : t ≤ T) :
    (varList spec params resids backcast b T).take t =
      varList spec params resids backcast b t := by
  induction T with
  | zero => cases Nat.le_zero.mp h; rfl
  | succ n ih =>
      rcases Nat.lt_or_ge t (n + 1) with hlt | hge
      · have ht : t ≤ n := Nat.lt_succ_iff.mp hlt
        show (varList spec params resids backcast b n ++ _).take t = _
        rw [List.take_append_of_le_length
              (by rw [varList_length]; exact ht), ih ht]
      · have : t = n + 1 := le_antisymm h hge
        subst this
        exact List.take_of_length_le (by rw [varList_length])

lemma varList_getD (spec : ModelSpec) (params resids : List ℚ)
    (backcast : ℚ) (b : Bounds) {t T : ℕ} (h : t < T) :
    (varList spec params resids backcast b T).getD t 0 =
      clamp b (varStep spec params resids backcast
        (varList spec params resids backcast b t)) := by
  induction T with
  | zero => omega
  | succ n ih =>
      rcases Nat.lt_or_ge t n with hlt | hge
      · show (varList spec params resids backcast b n ++ _).getD t 0 = _
        rw [List.getD_append _ _ _ _ (by rw [varList_length]; exact hlt)]
        exact ih hlt
      · have ht : t = n := by omega
        subst ht
        show (varList spec params resids backcast b t ++ _).getD t 0 = _
        rw [List.getD_append_right _ _ _ _ (by rw [varList_length])]
        simp [varList_length]

lemma varList_mem_bounds (spec : ModelSpec) (params resids : List ℚ)
    (backcast : ℚ) (b : Bounds) (T : ℕ) :
    ∀ x ∈ varList spec params resids backcast b T,
      b.lower ≤ x ∧ x ≤ b.upper := by
  induction T with
  | zero => intro x hx; cases hx
  | succ n ih =>
      intro x hx
      rcases List.mem_append.mp hx with hx | hx
      · exact ih x hx
      · rcases List.mem_singleton.mp hx with rfl
        exact clamp_bounds b _

/-- `varStep` reads residual entries only at indices strictly below the
current time `prev.length`. -/
lemma varStep_congr_resids (spec : ModelSpec) (params : List ℚ)
    (backcast : ℚ) (prev : List ℚ) {r1 r2 : List ℚ} {k : ℕ}
    (hlen : prev.length < k)
    (hagree : ∀ i, i < k → r1.getD i 0 = r2.getD i 0) :
    varStep spec params r1 backcast prev =
      varStep spec params r2 backcast prev := by
  have h : ∀ i ∈ Finset.range spec.p,
      params.getD (1 + i) 0 *
        (if prev.length < i + 1 then backcast
          else (r1.getD (prev.length - (i + 1)) 0) ^ 2) =
      params.getD (1 + i) 0 *
        (if prev.length < i + 1 then backcast
          else (r2.getD (prev.length - (i + 1)) 0) ^ 2) := by
    intro i _
    split
    · rfl
    · rw [hagree _ (by omega)]
  simp only [varStep]
  rw [Finset.sum_congr rfl h]

lemma varList_congr_resids (spec : ModelSpec) (params : List ℚ)
    (backcast : ℚ) (b : Bounds) {r1 r2 : List ℚ} {k : ℕ}
    (hagree : ∀ i, i < k → r1.getD i 0 = r2.getD i 0) :
    ∀ n, n ≤ k →
      varList spec params r1 backcast b n =
        varList spec params r2 backcast b n := by
  intro n
  induction n with
  | zero => intro _; rfl
  | succ m ih =>
      intro h
      show varList spec params r1 backcast b m ++ _ = _
      rw [ih (by omega),
        varStep_congr_resids spec params backcast _
          (by rw [varList_length]; omega) hagree]
      rfl

/-! Claim theorems for the variance kernel. -/

/-- Claim C1, counterexample: the claim (and the spec's example) state that
VarianceSeries[0] = ω + α·Backcast + β·Backcast equals 0.98, but
0.01 + 0.08·1 + 0.90·1 = 0.99, so the kernel's element 0 is not 0.98. -/
theorem c1_counterexample :
    (compute_variance garch11 [1/100, 2/25, 9/10] [0, 1, -1, 2] 1
        exBounds).map (fun l => l.getD 0 0) ≠ Except.ok (49/50 : ℚ) := by
  norm_num [compute_variance, varList, varStep, clamp, paramCount, garch11,
    exBounds, Finset.sum_range_succ, Except.map]

/-- Claim C1, amended: for GARCH(1,1) with ParameterVector
[ω=0.01, α=0.08, β=0.90], ResidualSeries [0, 1, -1, 2], Backcast 1.0 and
Bounds [1e-8, 1e8], `compute_variance` returns the VarianceSeries whose
element 0 is ω + α·Backcast + β·Backcast = 0.99, element 1 is
0.01 + 0.08·0² + 0.90·0.99 = 0.901, and whose subsequent elements 0.9009
and 0.90081 follow the recursion
variance_t = ω + α·r²_{t-1} + β·variance_{t-1} step by step. -/
theorem c1_garch11_example :
    compute_variance garch11 [1/100, 2/25, 9/10] [0, 1, -1, 2] 1 exBounds =
      .ok [99/100, 901/1000, 9009/10000, 90081/100000] := by
  norm_num [compute_variance, varList, varStep, clamp, paramCount, garch11,
    exBounds, Finset.sum_range_succ]

/-- Claim C2: for every ModelSpec, ParameterVector (including infeasible
ones), ResidualSeries, Backcast and Bounds, every element of the returned
VarianceSeries lies between Bounds.lower and Bounds.upper, and each element
is the clamped value of the recursion step computed from the (already
clamped) earlier elements, so clamping happens before a value feeds later
time steps. -/
theorem c2_bounds_invariant (spec : ModelSpec) (params resids : List ℚ)
    (backcast : ℚ) (b : Bounds) (vs : List ℚ)
    (h : compute_variance spec params resids backcast b = .ok vs) :
    (∀ x ∈ vs, b.lower ≤ x ∧ x ≤ b.upper) ∧
    ∀ t, t < vs.length →
      vs.getD t 0 = clamp b (varStep spec params resids backcast
        (vs.take t)) := by
  unfold compute_variance at h
  split at h
  · cases h
  · cases h
    refine ⟨varList_mem_bounds spec params resids backcast b _, fun t ht => ?_⟩
    rw [varList_length] at ht
    rw [varList_take spec params resids backcast b (le_of_lt ht),
      varList_getD spec params resids backcast b ht]

/-- Witness for C2 at the spec's GARCH(1,1) example: the second variance
element 0.901 lies within the bounds [1e-8, 1e8]. -/
theorem c2_bounds_invariant_witness :
    exBounds.lower ≤ (901/1000 : ℚ) ∧ (901/1000 : ℚ) ≤ exBounds.upper :=
  (c2_bounds_invariant garch11 [1/100, 2/25, 9/10] [0, 1, -1, 2] 1 exBounds
      [99/100, 901/1000, 9009/10000, 90081/100000]
      (by norm_num [compute_variance, varList, varStep, clamp, paramCount,
        garch11, exBounds, Finset.sum_range_succ])).1
    (901/1000) (List.Mem.tail _ (List.Mem.head _))

/-- Claim C3: causality of `compute_variance` — for any two ResidualSeries
of equal length that agree on indices below k and differ at index k, the
resulting VarianceSeries agree on all elements at indices strictly below k:
element t never depends on residual values at time ≥ t+1. -/
theorem c3_causality (spec : ModelSpec) (params : List ℚ) (backcast : ℚ)
    (b : Bounds) (r1 r2 : List ℚ) (k : ℕ)
    (hlen : r1.length = r2.length)
    (hagree : ∀ i, i < k → r1.getD i 0 = r2.getD i 0)
    (_hdiff : r1.getD k 0 ≠ r2.getD k 0)
    (vs1 vs2 : List ℚ)
    (h1 : compute_variance spec params r1 backcast b = .ok vs1)
    (h2 : compute_variance spec params r2 backcast b = .ok vs2) :
    ∀ t, t < k → vs1.getD t 0 = vs2.getD t 0 := by
  unfold compute_variance at h1 h2
  split at h1
  · cases h1
  split at h2
  · cases h2
  cases h1
  cases h2
  intro t ht
  rcases Nat.lt_or_ge t r1.length with hT | hT
  · rw [varList_getD spec params r1 backcast b hT,
      varList_getD spec params r2 backcast b (hlen ▸ hT),
      varList_congr_resids spec params backcast b hagree t (le_of_lt ht),
      varStep_congr_resids spec params backcast _
        (by rw [varList_length]; exact ht) hagree]
  · rw [List.getD_eq_getElem?_getD, List.getD_eq_getElem?_getD,
      List.getElem?_eq_none (by rw [varList_length]; exact hT),
      List.getElem?_eq_none (by rw [varList_length]; exact hlen ▸ hT)]

/-- Witness for C3: perturbing the GARCH(1,1) example's residuals at index 2
leaves variance element 1 unchanged (both runs give 0.901). -/
theorem c3_causality_witness :
    ([99/100, 901/1000, 9009/10000, 90081/100000] : List ℚ).getD 1 0 =
      ([99/100, 901/1000, 9009/10000, 282081/100000] : List ℚ).getD 1 0 :=
  c3_causality garch11 [1/100, 2/25, 9/10] 1 exBounds
    [0, 1, -1, 2] [0, 1, 5, 2] 2 rfl
    (by intro i hi; interval_cases i <;> rfl)
    (by norm_num)
    [99/100, 901/1000, 9009/10000, 90081/100000]
    [99/100, 901/1000, 9009/10000, 282081/100000]
    (by norm_num [compute_variance, varList, varStep, clamp, paramCount,
      garch11, exBounds, Finset.sum_range_succ])
    (by norm_num [compute_variance, varList, varStep, clamp, paramCount,
      garch11, exBounds, Finset.sum_range_succ])
    1 (by norm_num)

/-- Claim C4: `compute_variance` returns InputMismatch exactly when the
ParameterVector length disagrees with the required parameter count or the
ResidualSeries is empty; for all other inputs it returns a VarianceSeries
of length T (a total function over the parameter space). -/
theorem c4_error_iff (spec : ModelSpec) (params resids : List ℚ)
    (backcast : ℚ) (b : Bounds) :
    (compute_variance spec params resids backcast b =
        .error .InputMismatch ↔
      params.length ≠ paramCount spec ∨ resids.length = 0) ∧
    (params.length = paramCount spec → resids.length ≠ 0 →
      compute_variance spec params resids backcast b =
        .ok (varList spec params resids backcast b resids.length) ∧
      (varList spec params resids backcast b resids.length).length =
        resids.length) := by
  constructor
  · unfold compute_variance
    split
    · exact ⟨fun _ => by assumption, fun _ => rfl⟩
    · exact ⟨fun h => Except.noConfusion h, fun h => absurd h (by assumption)⟩
  · intro h1 h2
    refine ⟨?_, varList_length spec params resids backcast b _⟩
    unfold compute_variance
    rw [if_neg (by simp [h1, h2])]

/-- Witness for C4: the GARCH(1,1) example input has matching parameter
count and nonempty residuals, so the kernel returns a VarianceSeries. -/
theorem c4_error_iff_witness :
    compute_variance garch11 [1/100, 2/25, 9/10] [0, 1, -1, 2] 1 exBounds =
      .ok (varList garch11 [1/100, 2/25, 9/10] [0, 1, -1, 2] 1 exBounds
        ([0, 1, -1, 2] : List ℚ).length) ∧
    (varList garch11 [1/100, 2/25, 9/10] [0, 1, -1, 2] 1 exBounds
        ([0, 1, -1, 2] : List ℚ).length).length =
      ([0, 1, -1, 2] : List ℚ).length :=
  (c4_error_iff garch11 [1/100, 2/25, 9/10] [0, 1, -1, 2] 1 exBounds).2
    (by rfl) (by simp)

/-! The random stream and the bootstrap index samplers.  The Cython sampler
sources (`arch/bootstrap/_samplers.pyx`) are not available, so these are
modelled from the spec. -/

/-- Modelled from the spec: `RandomStream` is a seedable generator with an
explicit state and no hidden global state shared between instances; the
generator itself is modelled as a linear congruential generator on a `ℕ`
state. -/
structure RandomStream where
  state : ℕ
deriving DecidableEq

/-- Modelled from the spec: construct a RandomStream seeded to an explicit
state. -/
def RandomStream.seeded (seed : ℕ) : RandomStream := ⟨seed⟩

/-- Modelled from the spec: advance the generator state (64-bit LCG). -/
def lcgNext (s : ℕ) : ℕ :=
  (6364136223846793005 * s + 1442695040888963407) % (2 ^ 64)

/-- Modelled from the spec: `next_index(n) -> integer in [0, n)` together
with the advanced stream. -/
def RandomStream.nextIndex (rs : RandomStream) (n : ℕ) : ℕ × RandomStream :=
  (lcgNext rs.state % n, ⟨lcgNext rs.state⟩)

/-- Modelled from the spec: draw `count` indices, each uniform in [0, n). -/
def drawMany : ℕ → ℕ → RandomStream → List ℕ × RandomStream
  | 0, _, rs => ([], rs)
  | c + 1, n, rs =>
      ((rs.nextIndex n).1 :: (drawMany c n (rs.nextIndex n).2).1,
        (drawMany c n (rs.nextIndex n).2).2)

/-- Modelled from the spec: `sample_indices` for independent resampling —
an IndexArray of n independent uniform draws from [0, n). -/
def sample_indices (n : ℕ) (rs : RandomStream) : List ℕ × RandomStream :=
  drawMany n n rs

/-- A call in a replication run: draw one IndexArray of size n from the
stream instance named by `id`. -/
inductive DrawCall where
  | draw (id : ℕ) (n : ℕ)

/-- Replace the state of one stream instance in a world of instances. -/
def updateW (w : ℕ → RandomStream) (id : ℕ) (rs : RandomStream) :
    ℕ → RandomStream :=
  fun j => if j = id then rs else w j

/-- Run a sequence of draw calls against a world of independently
constructed stream instances, logging which instance produced each
IndexArray. -/
def runWorld (w : ℕ → RandomStream) : List DrawCall → List (ℕ × List ℕ)
  | [] => []
  | .draw id n :: rest =>
      (id, (sample_indices n (w id)).1) ::
        runWorld (updateW w id (sample_indices n (w id)).2) rest

/-- The IndexArrays a given instance produced during a run. -/
def outputsOf (id : ℕ) (log : List (ℕ × List ℕ)) : List (List ℕ) :=
  (log.filter (fun e => e.1 == id)).map (fun e => e.2)

/-- The sequence of sample_indices calls directed at a given instance. -/
def callsOf (id : ℕ) : List DrawCall → List ℕ
  | [] => []
  | .draw j n :: rest =>
      if j = id then n :: callsOf id rest else callsOf id rest

/-- Run one stream alone through a sequence of sample_indices calls. -/
def runStream (rs : RandomStream) : List ℕ → List (List ℕ)
  | [] => []
  | n :: rest =>
      (sample_indices n rs).1 :: runStream (sample_indices n rs).2 rest

/-- An instance's outputs in a shared run depend only on its own state and
the calls directed at it: other instances cause no interference. -/
lemma outputsOf_runWorld (id : ℕ) (w : ℕ → RandomStream)
    (calls : List DrawCall) :
    outputsOf id (runWorld w calls) = runStream (w id) (callsOf id calls) := by
  induction calls generalizing w with
  | nil => rfl
  | cons c rest ih =>
      obtain ⟨j, n⟩ := c
      by_cases hj : j = id
      · subst hj
        show outputsOf j ((j, _) :: _) = _
        unfold outputsOf
        rw [List.filter_cons_of_pos (by simp)]
        show _ :: outputsOf j (runWorld _ rest) = _
        rw [ih]
        simp [callsOf, runStream, updateW]
      · show outputsOf id ((j, _) :: _) = _
        unfold outputsOf
        rw [List.filter_cons_of_neg (by simp [hj])]
        show outputsOf id (runWorld _ rest) = _
        rw [ih]
        simp [callsOf, hj, updateW, Ne.symm hj]

/-- Claim C5: two RandomStream instances with the same seed produce
identical IndexArray sequences for the same sequence of sample_indices
calls, regardless of any interleaved use of other instances in either
run. -/
theorem c5_stream_determinism (w1 w2 : ℕ → RandomStream) (id1 id2 : ℕ)
    (calls1 calls2 : List DrawCall)
    (hseed : w1 id1 = w2 id2)
    (hcalls : callsOf id1 calls1 = callsOf id2 calls2) :
    outputsOf id1 (runWorld w1 calls1) =
      outputsOf id2 (runWorld w2 calls2) := by
  rw [outputsOf_runWorld, outputsOf_runWorld, hseed, hcalls]

/-- Witness for C5: streams 0 and 1, both seeded 7, produce the same
IndexArrays under interleaved draws from other instances. -/
theorem c5_stream_determinism_witness :
    outputsOf 0 (runWorld (fun _ => RandomStream.seeded 7)
        [.draw 0 3, .draw 1 5, .draw 0 3]) =
      outputsOf 1 (runWorld (fun _ => RandomStream.seeded 7)
        [.draw 1 3, .draw 2 9, .draw 1 3]) :=
  c5_stream_determinism (fun _ => RandomStream.seeded 7)
    (fun _ => RandomStream.seeded 7) 0 1
    [.draw 0 3, .draw 1 5, .draw 0 3] [.draw 1 3, .draw 2 9, .draw 1 3]
    rfl rfl

/-- Modelled from the spec: one moving-block bootstrap block — the
contiguous run s, s+1, …, s+L−1, with no wraparound. -/
def movingBlock (s L : ℕ) : List ℕ := (List.range L).map (s + ·)

/-- Modelled from the spec: moving-block bootstrap draws — repeatedly draw
a uniform start index in [0, n−L] and emit its block; `fuel` bounds the
number of blocks drawn. -/
def movingBlockDraws (n L : ℕ) : RandomStream → ℕ → List ℕ
  | _, 0 => []
  | rs, fuel + 1 =>
      movingBlock (rs.nextIndex (n - L + 1)).1 L ++
        movingBlockDraws n L (rs.nextIndex (n - L + 1)).2 fuel

/-- Modelled from the spec: the moving-block IndexArray — blocks are
emitted until n positions are produced, truncating the final block. -/
def movingBlockIndices (n L : ℕ) (rs : RandomStream) : List ℕ :=
  (movingBlockDraws n L rs n).take n

/-- Claim C6: with block length L=5 and data length n=20, a block drawn at
start index s ∈ [0, n−L] is exactly the contiguous run
[s, s+1, s+2, s+3, s+4], every emitted value is at most n−1 = 19 (no
wraparound), and such a block occupies the first five slots of the
IndexArray when it is the first block drawn. -/
theorem c6_moving_block (s : ℕ) (h : s ≤ 20 - 5) :
    movingBlock s 5 = [s, s + 1, s + 2, s + 3, s + 4] ∧
    (∀ x ∈ movingBlock s 5, x ≤ 19) ∧
    ∀ rs : RandomStream, (rs.nextIndex (20 - 5 + 1)).1 = s →
      (movingBlockIndices 20 5 rs).take 5 = [s, s + 1, s + 2, s + 3, s + 4] := by
  have hm : movingBlock s 5 = [s, s + 1, s + 2, s + 3, s + 4] := by
    simp [movingBlock, List.range_succ]
  refine ⟨hm, fun x hx => ?_, fun rs hrs => ?_⟩
  · rw [hm] at hx
    simp only [List.mem_cons, List.not_mem_nil, or_false] at hx
    rcases hx with rfl | rfl | rfl | rfl | rfl <;> omega
  · unfold movingBlockIndices
    rw [List.take_take]
    show (movingBlockDraws 20 5 rs 20).take 5 = _
    unfold movingBlockDraws
    rw [hrs, List.take_append_of_le_length (by rw [hm]; simp),
      List.take_of_length_le (by rw [hm]; simp), hm]

/-- Witness for C6 at start index 7: the block is [7, 8, 9, 10, 11]. -/
theorem c6_moving_block_witness :
    movingBlock 7 5 = [7, 8, 9, 10, 11] :=
  (c6_moving_block 7 (by norm_num)).1

/-- Modelled from the spec: one stationary/circular-block bootstrap block —
block positions wrap circularly modulo n when the block runs past the end
of the data. -/
def circularBlock (n s len : ℕ) : List ℕ :=
  (List.range len).map (fun i => (s + i) % n)

/-- Claim C7: for the stationary/circular-block bootstrap with data length
n=10, a block starting at index 8 with length 5 emits exactly
[8, 9, 0, 1, 2]: positions wrap circularly modulo n. -/
theorem c7_circular_wraparound : circularBlock 10 8 5 = [8, 9, 0, 1, 2] := by
  decide

/-! `setup.py`, translated from the source. -/

/-- From setup.py: `SETUP_REQUIREMENTS = {'numpy': '1.8'}`. -/
def SETUP_REQUIREMENTS : List (String × String) := [("numpy", "1.8")]

/-- From setup.py: the `REQUIREMENTS` dict. -/
def REQUIREMENTS : List (String × String) :=
  [("Cython", "0.22"), ("matplotlib", "1.3"), ("scipy", "0.14"),
   ("pandas", "0.14"), ("statsmodels", "0.6"), ("patsy", "0.2")]

/-- From setup.py: `ALL_REQUIREMENTS` is `SETUP_REQUIREMENTS` updated with
`REQUIREMENTS` (the key sets are disjoint). -/
def ALL_REQUIREMENTS : List (String × String) :=
  SETUP_REQUIREMENTS ++ REQUIREMENTS

/-- A `setuptools` extension module: name and source files. -/
structure Extension where
  name : String
  sources : List String
deriving DecidableEq

/-- From setup.py lines 42–50: if `--no-binary` is not in `sys.argv`, two
Cython extensions are registered; otherwise `ext_modules` stays empty, the
`Cython` key is deleted from `REQUIREMENTS`, and the first occurrence of
`--no-binary` is removed from `sys.argv`.  Returns
(ext_modules, requirements, argv) after this block. -/
def configureBuild (argv : List String) :
    List Extension × List (String × String) × List String :=
  if "--no-binary" ∈ argv then
    ([], REQUIREMENTS.filter (fun kv => kv.1 != "Cython"),
      argv.erase "--no-binary")
  else
    ([⟨"arch.univariate.recursions", ["./arch/univariate/recursions.pyx"]⟩,
      ⟨"arch.bootstrap._samplers", ["./arch/bootstrap/_samplers.pyx"]⟩],
     REQUIREMENTS, argv)

/-- Claim C8: with `--no-binary` in argv, `ext_modules` is empty, `Cython`
is no longer a requirements key, and `--no-binary` is removed from argv;
otherwise `ext_modules` holds exactly the two extensions
`arch.univariate.recursions` and `arch.bootstrap._samplers`, in that order,
and requirements and argv are untouched. -/
theorem c8_ext_modules (argv : List String) :
    ("--no-binary" ∈ argv →
      (configureBuild argv).1 = [] ∧
      (∀ kv ∈ (configureBuild argv).2.1, kv.1 ≠ "Cython") ∧
      (configureBuild argv).2.2 = argv.erase "--no-binary") ∧
    ("--no-binary" ∉ argv →
      (configureBuild argv).1 =
        [⟨"arch.univariate.recursions", ["./arch/univariate/recursions.pyx"]⟩,
         ⟨"arch.bootstrap._samplers", ["./arch/bootstrap/_samplers.pyx"]⟩] ∧
      (configureBuild argv).2.1 = REQUIREMENTS ∧
      (configureBuild argv).2.2 = argv) := by
  constructor
  · intro hmem
    unfold configureBuild
    rw [if_pos hmem]
    refine ⟨rfl, fun kv hkv => ?_, rfl⟩
    have := List.of_mem_filter hkv
    simpa using this
  · intro hmem
    unfold configureBuild
    rw [if_neg hmem]
    exact ⟨rfl, rfl, rfl⟩

/-- Witness for C8 on argv = ["--no-binary"]: no extensions are built and
the flag is removed. -/
theorem c8_ext_modules_witness :
    (configureBuild ["--no-binary"]).1 = [] ∧
    (configureBuild ["--no-binary"]).2.2 =
      List.erase ["--no-binary"] "--no-binary" :=
  ⟨((c8_ext_modules ["--no-binary"]).1 (List.Mem.head _)).1,
   ((c8_ext_modules ["--no-binary"]).1 (List.Mem.head _)).2.2⟩

/-- From setup.py: `strip_rc(version)` is `re.sub(r"rc\d+$", "", version)`.
The regex removes the (unique, if any) trailing suffix consisting of "rc"
followed by one or more digits; the implementation takes the maximal
trailing digit run of the reversed string and checks that "rc" precedes
it. -/
def strip_rc (v : List Char) : List Char :=
  let r := v.reverse
  let ds := r.takeWhile Char.isDigit
  if ds = [] then v
  else if (r.drop ds.length).take 2 = ['c', 'r'] then
    (r.drop (ds.length + 2)).reverse
  else v

lemma takeWhile_append_all {α : Type} {p : α → Bool} {xs : List α}
    (ys : List α) (h : ∀ x ∈ xs, p x = true) :
    (xs ++ ys).takeWhile p = xs ++ ys.takeWhile p := by
  induction xs with
  | nil => rfl
  | cons a t ih =>
      simp only [List.cons_append, List.takeWhile_cons, h a (.head _),
        if_true]
      rw [ih fun x hx => h x (.tail _ hx)]

/-- `strip_rc` removes a trailing "rc"-digits suffix. -/
lemma strip_rc_strips (a ds : List Char) (hne : ds ≠ [])
    (hdig : ∀ c ∈ ds, c.isDigit = true) :
    strip_rc (a ++ 'r' :: 'c' :: ds) = a := by
  have hrev : (a ++ 'r' :: 'c' :: ds).reverse =
      ds.reverse ++ 'c' :: 'r' :: a.reverse := by
    simp
  have hTW : (ds.reverse ++ 'c' :: 'r' :: a.reverse).takeWhile Char.isDigit =
      ds.reverse := by
    rw [takeWhile_append_all _ (fun x hx => hdig x (List.mem_reverse.mp hx))]
    simp [List.takeWhile_cons]
  have hlen2 : (ds.reverse ++ ['c', 'r']).length = ds.reverse.length + 2 := by
    simp
  have hdrop : (ds.reverse ++ 'c' :: 'r' :: a.reverse).drop
      ds.reverse.length = 'c' :: 'r' :: a.reverse := List.drop_left _ _
  have hdrop2 : (ds.reverse ++ 'c' :: 'r' :: a.reverse).drop
      (ds.reverse.length + 2) = a.reverse := by
    have : ds.reverse ++ 'c' :: 'r' :: a.reverse =
        (ds.reverse ++ ['c', 'r']) ++ a.reverse := by simp
    rw [this, ← hlen2, List.drop_left]
  simp only [strip_rc]
  rw [hrev, hTW, if_neg (by simpa using hne), hdrop, hdrop2]
  simp

/-- Either `strip_rc` leaves its input unchanged, or the input ends in an
"rc"-digits suffix which `strip_rc` removes. -/
lemma drop_length_takeWhile {α : Type} (p : α → Bool) (l : List α) :
    l.drop (l.takeWhile p).length = l.dropWhile p := by
  nth_rewrite 2 [← List.takeWhile_append_dropWhile p l]
  rw [List.drop_left]

lemma strip_rc_cases (v : List Char) :
    strip_rc v = v ∨
    ∃ a ds, v = a ++ 'r' :: 'c' :: ds ∧ ds ≠ [] ∧
      ∀ c ∈ ds, c.isDigit = true := by
  by_cases h1 : v.reverse.takeWhile Char.isDigit = []
  · left; simp only [strip_rc]; rw [if_pos h1]
  · by_cases h2 : ((v.reverse.drop
        (v.reverse.takeWhile Char.isDigit).length).take 2) = ['c', 'r']
    · right
      have hsplit : v.reverse.takeWhile Char.isDigit ++
          v.reverse.drop (v.reverse.takeWhile Char.isDigit).length =
            v.reverse := by
        rw [drop_length_takeWhile, List.takeWhile_append_dropWhile]
      have hw2 : v.reverse.drop (v.reverse.takeWhile Char.isDigit).length =
          'c' :: 'r' ::
            (v.reverse.drop
              (v.reverse.takeWhile Char.isDigit).length).drop 2 := by
        have h3 := List.take_append_drop 2
          (v.reverse.drop (v.reverse.takeWhile Char.isDigit).length)
        rw [h2] at h3
        exact h3.symm
      refine ⟨((v.reverse.drop
          (v.reverse.takeWhile Char.isDigit).length).drop 2).reverse,
        (v.reverse.takeWhile Char.isDigit).reverse, ?_, ?_, ?_⟩
      · conv_lhs => rw [← List.reverse_reverse v, ← hsplit, hw2]
        simp
      · simpa using h1
      · intro c hc
        exact List.mem_takeWhile_imp (List.mem_reverse.mp hc)
    · left; simp only [strip_rc]; rw [if_neg h1, if_neg h2]

/-- Claim C9, counterexample to idempotence: removing the trailing
"rc1" of "rc1rc1" exposes another such suffix, so applying `strip_rc`
twice differs from applying it once. -/
theorem c9_not_idempotent :
    strip_rc (strip_rc ['r', 'c', '1', 'r', 'c', '1']) ≠
      strip_rc ['r', 'c', '1', 'r', 'c', '1'] := by
  decide

/-- Claim C9, amended: `strip_rc` removes exactly one trailing suffix of
the form "rc" followed by one or more digits, and returns every string
without such a trailing suffix unchanged; it is not idempotent, because
removing the suffix can expose another such suffix. -/
theorem c9_strip_rc (v : List Char) :
    (∀ a ds, v = a ++ 'r' :: 'c' :: ds → ds ≠ [] →
      (∀ c ∈ ds, c.isDigit = true) → strip_rc v = a) ∧
    ((¬ ∃ a ds, v = a ++ 'r' :: 'c' :: ds ∧ ds ≠ [] ∧
        ∀ c ∈ ds, c.isDigit = true) → strip_rc v = v) := by
  constructor
  · intro a ds hv hne hdig
    rw [hv]
    exact strip_rc_strips a ds hne hdig
  · intro hnone
    rcases strip_rc_cases v with h | h
    · exact h
    · exact absurd h hnone

/-- Witness for C9: "xrc12" loses its "rc12" suffix. -/
theorem c9_strip_rc_witness :
    strip_rc ['x', 'r', 'c', '1', '2'] = ['x'] :=
  (c9_strip_rc ['x', 'r', 'c', '1', '2']).1 ['x'] ['1', '2'] rfl
    (by decide) (by decide)

/-- Numeric value of a digit run. -/
def natOfDigits (ds : List Char) : ℕ :=
  ds.foldl (fun acc c => 10 * acc + (c.toNat - '0'.toNat)) 0

/-- Parse a leading nonempty digit run; returns the value and the rest. -/
def parseNat (s : List Char) : Option (ℕ × List Char) :=
  let ds := s.takeWhile Char.isDigit
  if ds = [] then none else some (natOfDigits ds, s.drop ds.length)

/-- Models `distutils.version.StrictVersion` (an external collaborator of
setup.py): version tuple (major, minor, patch) plus optional prerelease
tag ('a' or 'b' with a number). -/
structure StrictVersion where
  major : ℕ
  minor : ℕ
  patch : ℕ
  prerelease : Option (Char × ℕ)
deriving DecidableEq

/-- Models StrictVersion parsing along the regex
`^(\d+) \. (\d+) (\. (\d+))? ([ab](\d+))?$`; `none` corresponds to the
ValueError the Python constructor raises on an invalid version string. -/
def parseStrictVersion (s : List Char) : Option StrictVersion :=
  match parseNat s with
  | none => none
  | some (maj, r1) =>
    match r1 with
    | '.' :: r2 =>
      match parseNat r2 with
      | none => none
      | some (minor, r3) =>
        let pr : Option (ℕ × List Char) :=
          match r3 with
          | '.' :: r4 =>
            match parseNat r4 with
            | none => none
            | some (p, r5) => some (p, r5)
          | _ => some (0, r3)
        match pr with
        | none => none
        | some (patch, r6) =>
          match r6 with
          | [] => some ⟨maj, minor, patch, none⟩
          | c :: r7 =>
            if c = 'a' ∨ c = 'b' then
              match parseNat r7 with
              | some (n, []) => some ⟨maj, minor, patch, some (c, n)⟩
              | _ => none
            else none
    | _ => none

/-- Models StrictVersion comparison: lexicographic on the version tuple; a
version with a prerelease tag precedes the same version without one;
prerelease tags compare lexicographically. -/
def svLess (x y : StrictVersion) : Bool :=
  if x.major ≠ y.major then decide (x.major < y.major)
  else if x.minor ≠ y.minor then decide (x.minor < y.minor)
  else if x.patch ≠ y.patch then decide (x.patch < y.patch)
  else
    match x.prerelease, y.prerelease with
    | none, none => false
    | some _, none => true
    | none, some _ => false
    | some a, some b =>
        decide (a.1 < b.1) || (decide (a.1 = b.1) && decide (a.2 < b.2))

/-- From setup.py: `PACKAGE_CHECKS = ['numpy', 'scipy', 'pandas']`. -/
def PACKAGE_CHECKS : List String := ["numpy", "scipy", "pandas"]

/-- The import environment one package check can observe: the package (or
its version module) is absent (ImportError, silently passed), the package
imports but its version cannot be read (treated as too old), or a version
string is detected. -/
inductive PkgStatus where
  | absent
  | brokenVersion
  | installed (v : List Char)

/-- Outcome of one iteration of the PACKAGE_CHECKS loop. -/
inductive CheckOutcome where
  | ok
  | envError
  | valueError
  | notImplementedError
deriving DecidableEq

/-- The minimum required version for a key: `ALL_REQUIREMENTS[key]` parsed
as a StrictVersion. -/
def requiredOf (key : String) : Option StrictVersion :=
  (ALL_REQUIREMENTS.lookup key).bind fun r => parseStrictVersion r.toList

/-- From setup.py lines 108–152: the body of the PACKAGE_CHECKS loop for
one key.  Unknown keys raise NotImplementedError; an absent package
passes; a package whose version module cannot be read raises
EnvironmentError; a detected (nonempty) version string is stripped of any
rc suffix, parsed as a StrictVersion, and compared against
`ALL_REQUIREMENTS[key]` — EnvironmentError is raised exactly when it is
strictly below the minimum. -/
def checkPackage (key : String) (st : PkgStatus) : CheckOutcome :=
  if key = "numpy" ∨ key = "scipy" ∨ key = "pandas" then
    match st with
    | .absent => .ok
    | .brokenVersion => .envError
    | .installed v =>
        if v = [] then .ok
        else
          match parseStrictVersion (strip_rc v), requiredOf key with
          | some ex, some req => if svLess ex req then .envError else .ok
          | _, _ => .valueError
  else .notImplementedError

/-- Claim C10: for each of numpy, scipy and pandas the check raises
EnvironmentError exactly when a version string is detected whose
StrictVersion (after strip_rc) is strictly below the required minimum; a
package that is not installed passes without raising; any key outside the
three raises NotImplementedError. -/
theorem c10_package_checks (key : String) (st : PkgStatus) :
    ((key = "numpy" ∨ key = "scipy" ∨ key = "pandas") →
      (st = .absent → checkPackage key st = .ok) ∧
      (∀ v ex req, st = .installed v → v ≠ [] →
        parseStrictVersion (strip_rc v) = some ex →
        requiredOf key = some req →
        (checkPackage key st = .envError ↔ svLess ex req = true))) ∧
    (¬(key = "numpy" ∨ key = "scipy" ∨ key = "pandas") →
      checkPackage key st = .notImplementedError) := by
  constructor
  · intro hkey
    constructor
    · rintro rfl
      simp [checkPackage, hkey]
    · rintro v ex req rfl hv hex hreq
      unfold checkPackage
      rw [if_pos hkey]
      show (if v = [] then CheckOutcome.ok else _) = _ ↔ _
      rw [if_neg hv, hex, hreq]
      show (if svLess ex req then CheckOutcome.envError
          else CheckOutcome.ok) = CheckOutcome.envError ↔ svLess ex req = true
      cases hsv : svLess ex req <;> simp [hsv]
  · intro hkey
    simp [checkPackage, hkey]

/-- Witness for C10: numpy at detected version "1.7.1" is below the
required minimum 1.8, so the check raises EnvironmentError. -/
theorem c10_package_checks_witness :
    checkPackage "numpy" (.installed ['1', '.', '7', '.', '1']) =
      .envError :=
  (((c10_package_checks "numpy"
        (.installed ['1', '.', '7', '.', '1'])).1 (Or.inl rfl)).2
      ['1', '.', '7', '.', '1'] ⟨1, 7, 1, none⟩ ⟨1, 8, 0, none⟩ rfl
      (by decide) (by decide) (by decide)).mpr (by decide)

end Arch
